import Mathlib

/-!
Shallow embedding of the BitTorrent client (Go, `src/unnamed/part_000`) and
verification of the frozen claims about it.

Conventions of the embedding:
* Go byte strings are modelled as `List Char` (each `Char` standing for one
  byte); raw network bytes are modelled as `List Nat`.
* Go `int` is modelled as `Int` (overflow plays no role in the claims);
  `uint32` conversions wrap explicitly modulo 2^32.
* Functions that can `panic` in Go (index out of range, explicit `panic(err)`)
  return a result type with a dedicated `crash` constructor; functions that
  return a Go `error` use an `err` constructor.
* The mutually recursive bencode decoder is given a fuel parameter so that it
  is structurally recursive and fully executable; the fuel `4 * length + 4`
  strictly dominates the number of recursive calls the Go code can make on an
  input of that length, and a dedicated `fuelOut` constructor keeps this
  artefact separate from genuine Go behaviours.
-/

namespace BitTorrentProof

/-- Result of a Go decoding function returning `(value, nextIndex, err)`.
`ok v next` is a successful return, `err idx msg` a returned non-nil error
together with the returned index, `crash msg` a Go runtime panic, and
`fuelOut` the (unreachable on the inputs we evaluate) fuel artefact of the
embedding. -/
inductive DecRes (α : Type) where
  | ok (v : α) (next : Nat)
  | err (idx : Nat) (msg : String)
  | crash (msg : String)
  | fuelOut
  deriving DecidableEq, Repr

/-- The dynamic value tree produced by the bencode decoder, the embedding of
Go's `interface` results: byte strings, integers, lists and dictionaries
(`map[string]interface` modelled as an association list updated with
last-write-wins semantics). -/
inductive BValue where
  | str (cs : List Char)
  | int (n : Int)
  | list (xs : List BValue)
  | dict (entries : List (List Char × BValue))

/-- Map update `m[k] = v` of a Go map modelled on an association list:
replace the existing binding of `k` if present, otherwise append. -/
def mapSet : List (List Char × BValue) → List Char → BValue → List (List Char × BValue)
  | [], k, v => [(k, v)]
  | (k', v') :: rest, k, v =>
      if k' = k then (k, v) :: rest else (k', v') :: mapSet rest k v

/-- Map lookup `m[k]` of a Go map; `none` models the nil interface returned
for an absent key. -/
def mapGet? : List (List Char × BValue) → List Char → Option BValue
  | [], _ => none
  | (k', v') :: rest, k => if k' = k then some v' else mapGet? rest k

/-- The digit test `b >= ASCII 48 and b <= ASCII 57` used by the Go scanning
loops (and equivalent, on bytes, to `unicode.IsDigit`). -/
def isDigitByte (c : Char) : Bool := '0' ≤ c ∧ c ≤ '9'

/-- Embedding of the digit-scanning loops
`for i < len and digit: x = x*10 + int(s[i]) - 48; i++`
over the suffix starting at the loop's initial index: returns the final
accumulator and the number of characters consumed. -/
def scanDigits : List Char → Nat → Nat × Nat
  | [], x => (x, 0)
  | c :: cs, x =>
      if isDigitByte c then
        let r := scanDigits cs (x * 10 + (c.toNat - 48))
        (r.1, r.2 + 1)
      else (x, 0)

/-- Embedding of Go `decodeString` (source lines 162-182): scan a decimal
length, require a following colon, require the slice to be in bounds, and
return the raw slice together with the index just past it. -/
def decodeString (s : List Char) (st : Nat) : DecRes (List Char) :=
  let r := scanDigits (s.drop st) 0
  let lengthStr := r.1
  let i := st + r.2
  if s.get? i ≠ some ':' then .err st "bad formatted string"
  else if s.length < i + 1 + lengthStr then
    .err st "index out of bounds for string length"
  else .ok ((s.drop (i + 1)).take lengthStr) (i + 1 + lengthStr)

/-- Embedding of Go `decodeNumber` (source lines 184-215): skip the leading
character, accept an optional minus sign, scan digits (an empty digit run
yields 0), and require a terminating `e`. -/
def decodeNumber (s : List Char) (st : Nat) : DecRes Int :=
  let i := st + 1
  if s.length = i then .err st "bad formatted number"
  else
    let isNegative := s.get? i = some '-'
    let i := if isNegative then i + 1 else i
    let r := scanDigits (s.drop i) 0
    let x : Int := (r.1 : Int)
    let i := i + r.2
    if s.get? i ≠ some 'e' then .err st "bad formatted number"
    else .ok (if isNegative then -x else x) (i + 1)

mutual

/-- Embedding of Go `decodeBencode` (source lines 80-93): dispatch on the
lookahead byte `s[st]`. The unguarded index access panics (`crash`) when the
offset is out of bounds, exactly as the Go expression `bencodedString[st]`
does. -/
def decodeBencodeF : Nat → List Char → Nat → DecRes BValue
  | 0, _, _ => .fuelOut
  | fuel + 1, s, st =>
    match s.get? st with
    | none => .crash "index out of range"
    | some ch =>
      if ch = 'd' then
        match decodeDictF fuel s st with
        | .ok m i => .ok (.dict m) i
        | .err i msg => .err i msg
        | .crash msg => .crash msg
        | .fuelOut => .fuelOut
      else if ch = 'l' then
        match decodeListF fuel s st with
        | .ok xs i => .ok (.list xs) i
        | .err i msg => .err i msg
        | .crash msg => .crash msg
        | .fuelOut => .fuelOut
      else if isDigitByte ch then
        match decodeString s st with
        | .ok v i => .ok (.str v) i
        | .err i msg => .err i msg
        | .crash msg => .crash msg
        | .fuelOut => .fuelOut
      else if ch = 'i' then
        match decodeNumber s st with
        | .ok v i => .ok (.int v) i
        | .err i msg => .err i msg
        | .crash msg => .crash msg
        | .fuelOut => .fuelOut
      else .err st "unexpected value"
termination_by structural fuel _ _ => fuel

/-- Embedding of Go `decodeDict` (source lines 95-132): start just past the
`d` and run the key/value loop. -/
def decodeDictF : Nat → List Char → Nat → DecRes (List (List Char × BValue))
  | 0, _, _ => .fuelOut
  | fuel + 1, s, st => decodeDictLoopF fuel s st (st + 1) []
termination_by structural fuel _ _ => fuel

/-- The key/value loop of Go `decodeDict`: stop with an error when the index
runs off the end, stop successfully on `e`, otherwise decode a key (which
must be a string; errors are reported at the pair's start index) and a value
(errors keep the callee's index) and store the pair with `m[k] = v`. -/
def decodeDictLoopF : Nat → List Char → Nat → Nat → List (List Char × BValue) →
    DecRes (List (List Char × BValue))
  | 0, _, _, _, _ => .fuelOut
  | fuel + 1, s, st, i, m =>
    if s.length ≤ i then .err st "bad formatted dictionary"
    else if s.get? i = some 'e' then .ok m (i + 1)
    else
      match decodeBencodeF fuel s i with
      | .ok key i2 =>
        match key with
        | .str k =>
          match decodeBencodeF fuel s i2 with
          | .ok v i3 => decodeDictLoopF fuel s st i3 (mapSet m k v)
          | .err j msg => .err j msg
          | .crash msg => .crash msg
          | .fuelOut => .fuelOut
        | _ => .err i "key is not a string"
      | .err _ msg => .err i msg
      | .crash msg => .crash msg
      | .fuelOut => .fuelOut
termination_by structural fuel _ _ _ _ => fuel

/-- Embedding of Go `decodeList` (source lines 134-160): start just past the
`l` and run the element loop. -/
def decodeListF : Nat → List Char → Nat → DecRes (List BValue)
  | 0, _, _ => .fuelOut
  | fuel + 1, s, st => decodeListLoopF fuel s st (st + 1) []
termination_by structural fuel _ _ => fuel

/-- The element loop of Go `decodeList`. -/
def decodeListLoopF : Nat → List Char → Nat → Nat → List BValue → DecRes (List BValue)
  | 0, _, _, _, _ => .fuelOut
  | fuel + 1, s, st, i, acc =>
    if s.length ≤ i then .err st "bad formatted list"
    else if s.get? i = some 'e' then .ok acc (i + 1)
    else
      match decodeBencodeF fuel s i with
      | .ok v i2 => decodeListLoopF fuel s st i2 (acc ++ [v])
      | .err j msg => .err j msg
      | .crash msg => .crash msg
      | .fuelOut => .fuelOut
termination_by structural fuel _ _ _ _ => fuel

end

/-- Fuel that dominates the number of recursive calls the decoder can make on
an input of the given length: every call either consumes a character or is
one of at most three intermediate steps per character. -/
def decodeFuel (s : List Char) : Nat := 4 * s.length + 4

/-- Go `decodeBencode` at its natural interface. -/
def decodeBencode (s : List Char) (st : Nat) : DecRes BValue :=
  decodeBencodeF (decodeFuel s) s st

/-- Go `decodeDict` at its natural interface (also called directly by
`parseTorrentFile` and `performPeerDiscovery`). -/
def decodeDict (s : List Char) (st : Nat) : DecRes (List (List Char × BValue)) :=
  decodeDictF (decodeFuel s) s st

example : decodeNumber ("i42e".toList) 0 = .ok 42 4 := by decide
example : decodeNumber ("i-42e".toList) 0 = .ok (-42) 5 := by decide
example : decodeNumber ("ie".toList) 0 = .ok 0 2 := by decide
example : decodeNumber ("i-e".toList) 0 = .ok 0 3 := by decide
example : decodeString ("5:hello".toList) 0 = .ok ("hello".toList) 7 := by decide
example : decodeBencode ("d4:spam4:eggse".toList) 0 =
    .ok (.dict [("spam".toList, .str ("eggs".toList))]) 14 := rfl
example : decodeBencode ("l4:spami7ee".toList) 0 =
    .ok (.list [.str ("spam".toList), .int 7]) 11 := rfl
example : decodeBencode ([] : List Char) 0 = .crash "index out of range" := rfl
example : decodeBencode ("x".toList) 0 = .err 0 "unexpected value" := rfl
example : decodeDict ("de".toList) 0 = .ok [] 2 := rfl

/-! ## Torrent metadata model (`parseTorrentFile`, `getPieces`) -/

/-- Lowercase hex digit for a value below 16, as produced by Go's `%x`. -/
def hexDigitChar (d : Nat) : Char :=
  if d < 10 then Char.ofNat (48 + d) else Char.ofNat (87 + d)

/-- Go `fmt.Sprintf` with `%x` over a byte string: two lowercase hex digits
per byte. -/
def hexStr (l : List Char) : List Char :=
  (l.map (fun c => [hexDigitChar (c.toNat / 16 % 16), hexDigitChar (c.toNat % 16)])).flatten

/-- The slicing loop of Go `getPieces`: cut the pieces blob into consecutive
20-byte groups. The fuel equals the list length, which the step that always
consumes at least one element can never exhaust. -/
def chunk20F : Nat → List Char → List (List Char)
  | 0, _ => []
  | _, [] => []
  | fuel + 1, l => l.take 20 :: chunk20F fuel (l.drop 20)

/-- Consecutive 20-byte groups of a byte string. -/
def chunk20 (l : List Char) : List (List Char) := chunk20F l.length l

/-- Embedding of Go `getPieces` (source lines 761-778): the argument is the
`info` dictionary's `pieces` entry (`none` models the nil interface of an
absent key). A non-string entry and a length that is not a multiple of 20
are returned errors; otherwise the blob is cut into 20-byte groups, each
rendered in hex. -/
def getPieces : Option BValue → Except String (List (List Char))
  | some (.str pieceHash) =>
      if pieceHash.length % 20 ≠ 0 then .error "invalid pieces hash"
      else .ok ((chunk20 pieceHash).map hexStr)
  | _ => .error "error while converting pieceHash to string"

/-- The typed `info` section of a parsed torrent file. -/
structure TorrentInfo where
  length : Int
  pieceLength : Int
  pieces : List (List Char)

/-- The result of Go `parseTorrentFile`. -/
structure ParsedTorrentFile where
  trackerUrl : List Char
  infoHash : List Char
  info : TorrentInfo

/-- Result of Go `parseTorrentFile`: a value, a returned error, a panic, or
the fuel artefact inherited from the decoder embedding. -/
inductive PRes where
  | ok (t : ParsedTorrentFile)
  | err (msg : String)
  | crash (msg : String)
  | fuelOut

/-- Embedding of Go `parseTorrentFile` (source lines 727-759). A failure of
the outer `decodeDict` is panicked (`panic(err)`), a missing or non-dictionary
`info` entry is a returned error, a `getPieces` failure is panicked, and the
type assertions `decoded[announce].(string)`, `info[length].(int)` and
`info[piece length].(int)` panic (interface conversion) when the entry is
absent or of the wrong type. The SHA-1 digest of the canonically re-encoded
`info` dictionary (`bencode.Marshal` into a `sha1` hash, rendered with `%x`)
is abstracted as the function parameter `ihash`. -/
def parseTorrentFile (ihash : List (List Char × BValue) → List Char)
    (data : List Char) : PRes :=
  match decodeDict data 0 with
  | .err _ msg => .crash msg
  | .crash msg => .crash msg
  | .fuelOut => .fuelOut
  | .ok decoded _ =>
    match mapGet? decoded ("info".toList) with
    | some (.dict info) =>
      match getPieces (mapGet? info ("pieces".toList)) with
      | .error msg => .crash msg
      | .ok pieces =>
        match mapGet? decoded ("announce".toList) with
        | some (.str url) =>
          match mapGet? info ("length".toList) with
          | some (.int len) =>
            match mapGet? info ("piece length".toList) with
            | some (.int plen) =>
              .ok { trackerUrl := url, infoHash := ihash info,
                    info := { length := len, pieceLength := plen, pieces := pieces } }
            | _ => .crash "interface conversion"
          | _ => .crash "interface conversion"
        | _ => .crash "interface conversion"
    | _ => .err "no info section"

/-! ## Peer address resolver (`parsePeers`) -/

/-- A peer endpoint: 4 address bytes and a 16-bit port. -/
structure Peer where
  ip : List Nat
  port : Nat
  deriving DecidableEq, Repr

/-- The slicing loop of Go `parsePeers`: each group of 6 bytes becomes a
peer whose port is the big-endian 16-bit value of the last two bytes. (The
Go loop runs only when the input length is a multiple of 6; on such inputs
the trailing non-6 case is unreachable.) -/
def peersChunks : List Nat → List Peer
  | a :: b :: c :: d :: e :: f :: rest => ⟨[a, b, c, d], e * 256 + f⟩ :: peersChunks rest
  | _ => []

/-- Embedding of Go `parsePeers` (source lines 711-725): a length that is
not a multiple of 6 is a returned error; otherwise each 6-byte group in
order yields one endpoint. -/
def parsePeers (peers : List Nat) : Except String (List Peer) :=
  if peers.length % 6 ≠ 0 then .error "peers string has incorrect length"
  else .ok (peersChunks peers)

example : parsePeers [1, 2, 3, 4, 0, 80, 5, 6, 7, 8, 1, 1] =
    .ok [⟨[1, 2, 3, 4], 80⟩, ⟨[5, 6, 7, 8], 257⟩] := rfl
example : parsePeers [1, 2, 3] = .error "peers string has incorrect length" := rfl

/-! ## Piece download orchestrator (`downloadPiece`)

The `net.Conn` used by `downloadPiece` is modelled as the list of bytes the
peer will send plus the log of the byte strings written so far. A call
`conn.Read(buf)` delivers the maximal available prefix (up to `len(buf)`
bytes, a deterministic refinement of Go's read semantics; the Go code ignores
the returned count and always consumes the whole zero-initialised buffer,
which the zero padding below reproduces) and reports `io.EOF` exactly when
the buffer is non-empty and the stream is exhausted. -/

/-- A connected stream: the unread incoming bytes and the log of writes. -/
structure Conn where
  input : List Nat
  writes : List (List Nat)
  deriving DecidableEq, Repr

/-- Model of `conn.Read(buf)` with `len(buf) = k`: `none` is an `io.EOF`
result, otherwise the full `k`-byte buffer (delivered bytes followed by the
untouched zero bytes) and the remaining stream are returned. A read into an
empty buffer succeeds without touching the stream. -/
def connRead (c : Conn) (k : Nat) : Option (List Nat × Conn) :=
  if k = 0 then some ([], c)
  else if c.input = [] then none
  else some (c.input.take k ++ List.replicate (k - c.input.length) 0,
             ⟨c.input.drop k, c.writes⟩)

/-- Model of `conn.Write(bs)`: append to the write log. -/
def connWrite (c : Conn) (bs : List Nat) : Conn :=
  ⟨c.input, c.writes ++ [bs]⟩

/-- Go `binary.BigEndian.Uint32` over four bytes. -/
def be32 (a b c d : Nat) : Nat := ((a * 256 + b) * 256 + c) * 256 + d

/-- Big-endian bytes of a 32-bit value, as written by `binary.Write`. -/
def u32Bytes (n : Nat) : List Nat :=
  [n / 16777216 % 256, n / 65536 % 256, n / 256 % 256, n % 256]

/-- Go conversion `uint32(n)` of an `int`: wrap modulo 2^32. -/
def u32OfInt (n : Int) : Nat := (Int.emod n 4294967296).toNat

/-- Failure modes of `downloadPiece`; every one is a Go `panic` (the function
has no error return). `emptyIndex` is the runtime panic of indexing byte 0 of
an empty message payload, `sliceOOB` the runtime panic of slicing a piece
payload shorter than 9 bytes, `piecesOOB` the runtime panic of indexing the
piece-digest table out of range, `integrity` the digest-mismatch panic, and
`readErr`/`readFullErr` the panics on a failed `conn.Read`/`io.ReadFull`. -/
inductive DLErr where
  | readErr
  | emptyIndex
  | expectedBitfield
  | expectedUnchoke
  | expectedPiece (msgId : Nat)
  | readFullErr
  | sliceOOB
  | piecesOOB
  | integrity
  deriving DecidableEq, Repr

/-- Embedding of the two identical framed-read blocks at the start of Go
`downloadPiece` (source lines 486-504 and 513-530): read a 4-byte big-endian
length prefix with `conn.Read` (any error, including `io.EOF`, is panicked),
read that many payload bytes with a single `conn.Read`, and take payload byte
0 as the message id — which panics (index out of range) when the payload is
empty, as happens for a keep-alive message whose length prefix is 0. -/
def readMsgId (c : Conn) : Except DLErr Nat × Conn :=
  match connRead c 4 with
  | none => (.error .readErr, c)
  | some (lb, c1) =>
    let len := be32 (lb.getD 0 0) (lb.getD 1 0) (lb.getD 2 0) (lb.getD 3 0)
    match connRead c1 len with
    | none => (.error .readErr, c1)
    | some (pb, c2) =>
      match pb.head? with
      | none => (.error .emptyIndex, c2)
      | some msgId => (.ok msgId, c2)

/-- The `interested` message `[0, 0, 0, 1, 2]` written at source line 507. -/
def interestedBytes : List Nat := [0, 0, 0, 1, 2]

/-- The 17 bytes produced by `binary.Write(buff, BigEndian, peerMessage)` for
a request message: length 13, id 6, then piece index, byte offset and block
length as wrapped 32-bit values. -/
def requestBytes (index offset blockLength : Int) : List Nat :=
  u32Bytes 13 ++ [6] ++ u32Bytes (u32OfInt index) ++ u32Bytes (u32OfInt offset) ++
    u32Bytes (u32OfInt blockLength)

/-- Go `int(math.Ceil(float64 a / float64 b))` for the sizes arising here:
ceiling division, expressed with Euclidean division (exact on the nonnegative
dividends and positive divisors the claims quantify over). -/
def ceilDivInt (a b : Int) : Int := Int.ediv (a + b - 1) b

/-- Go constant `BLOCK_SIZE = 16 * 1024`. -/
def BLOCK_SIZE : Int := 16384

/-- The effective length of the piece at `index` as computed at source lines
540-543: the full piece length unless `index` equals `pieceCnt - 1` where
`pieceCnt = ceil(fileLength / pieceLength)`, in which case it is
`fileLength % pieceLength` (Go's truncated remainder) — with no special case
when that remainder is zero. -/
def effectivePieceLength (fileLength pieceLength index : Int) : Int :=
  if index = ceilDivInt fileLength pieceLength - 1 then Int.tmod fileLength pieceLength
  else pieceLength

/-- The block loop of Go `downloadPiece` (source lines 549-606), with
`rem` blocks still to go out of `blockCnt` (the Go loop counter is
`i = blockCnt - rem`). Each iteration writes a request, reads the 4-byte
length prefix with `conn.Read` — where `io.EOF` executes `break`, leaving the
loop with the data received so far — then reads the payload with
`io.ReadFull` (a short stream is a panicked error), requires message id 7,
and appends the payload past byte 9 to the accumulated data. -/
def blockLoopF (index : Int) (blockCnt pieceLen : Int) :
    Nat → List Nat → Conn → Except DLErr (List Nat) × Conn
  | 0, data, c => (.ok data, c)
  | rem + 1, data, c =>
    let i : Int := blockCnt - ((rem : Int) + 1)
    let blockLength : Int :=
      if i = blockCnt - 1 then pieceLen - (blockCnt - 1) * BLOCK_SIZE else BLOCK_SIZE
    let c1 := connWrite c (requestBytes index (i * BLOCK_SIZE) blockLength)
    match connRead c1 4 with
    | none => (.ok data, c1)
    | some (lb, c2) =>
      let len := be32 (lb.getD 0 0) (lb.getD 1 0) (lb.getD 2 0) (lb.getD 3 0)
      if len ≤ c2.input.length then
        let pb := c2.input.take len
        let c3 : Conn := ⟨c2.input.drop len, c2.writes⟩
        match pb.head? with
        | none => (.error .emptyIndex, c3)
        | some msgId =>
          if msgId ≠ 7 then (.error (.expectedPiece msgId), c3)
          else if pb.length < 9 then (.error .sliceOOB, c3)
          else blockLoopF index blockCnt pieceLen rem (data ++ pb.drop 9) c3
      else (.error .readFullErr, c2)

/-- The part of Go `downloadPiece` before digest verification (source lines
482-606): await a bitfield message (any other id is the panic
`expected bitfield message`, raised before anything is written), write
`interested`, await an unchoke message, compute the piece's effective length
and block count, and run the block loop. -/
def downloadBlocks (t : ParsedTorrentFile) (index : Int) (c : Conn) :
    Except DLErr (List Nat) × Conn :=
  match readMsgId c with
  | (.error e, c1) => (.error e, c1)
  | (.ok id1, c1) =>
    if id1 ≠ 5 then (.error .expectedBitfield, c1)
    else
      let c2 := connWrite c1 interestedBytes
      match readMsgId c2 with
      | (.error e, c3) => (.error e, c3)
      | (.ok id2, c3) =>
        if id2 ≠ 1 then (.error .expectedUnchoke, c3)
        else
          let pieceLen := effectivePieceLength t.info.length t.info.pieceLength index
          let blockCnt := ceilDivInt pieceLen BLOCK_SIZE
          blockLoopF index blockCnt pieceLen blockCnt.toNat [] c3

/-- The digest verification at the end of Go `downloadPiece` (source lines
608-615): compare the digest of the assembled data with the expected piece
digest at `index` (indexing out of range panics) and panic on a mismatch,
otherwise return the data. The hex-rendered SHA-1 digest
`fmt.Sprintf` of `sha1.Sum(data)` with `%x` is abstracted as the function
parameter `hash`. -/
def verifyPiece (hash : List Nat → List Char) (t : ParsedTorrentFile) (index : Int)
    (data : List Nat) (c : Conn) : Except DLErr (List Nat) × Conn :=
  if h : 0 ≤ index ∧ index.toNat < t.info.pieces.length then
    if hash data = t.info.pieces.get ⟨index.toNat, h.2⟩ then (.ok data, c)
    else (.error .integrity, c)
  else (.error .piecesOOB, c)

/-- Embedding of Go `downloadPiece` (source lines 482-616): assemble the
blocks, then verify the digest of the assembled data. -/
def downloadPiece (hash : List Nat → List Char) (t : ParsedTorrentFile) (index : Int)
    (c : Conn) : Except DLErr (List Nat) × Conn :=
  match downloadBlocks t index c with
  | (.error e, c1) => (.error e, c1)
  | (.ok data, c1) => verifyPiece hash t index data c1

/-! ## Claims -/

/-- C1. Claim: `downloadPiece` computes the effective length of piece `i` as
`pieceLength` when `i` is not the last piece index and `totalLength mod
pieceLength` when it is, falling back to the full `pieceLength` when the
remainder is zero; for pieceLength 4 and totalLength 10 the last piece's
effective length is 2. The code agrees on the 10/4 case but has no fallback:
for totalLength 8, pieceLength 4 and last index 1 it computes 0, so the last
piece of an exact-multiple file downloads zero bytes. -/
theorem C1_effective_length :
    effectivePieceLength 10 4 2 = 2 ∧ effectivePieceLength 8 4 1 = 0 := by
  decide

/-- C4. Claim: an early end of the stream while further piece data is awaited
is reported as ConnectionClosed and not silently treated as completion of the
block loop. Refuted on the code: with a 2-piece file (length 5, piece length
4), requesting last piece 1 (one block) over a stream that ends right after
the bitfield and unchoke messages, the `io.EOF` at the length-prefix read
executes `break`, the loop is left with the empty buffer, and — the expected
digest here being the digest of the empty buffer — `downloadPiece` returns
success with no bytes instead of reporting the closed connection. -/
theorem C4_eof_is_treated_as_completion :
    (downloadPiece (fun _ => ['z']) ⟨[], [], ⟨5, 4, [['q'], ['z']]⟩⟩ 1
      ⟨[0, 0, 0, 2, 5, 0, 0, 0, 0, 1, 1], []⟩).1 = .ok [] := rfl

/-- C5. Claim: a framed message with length prefix 0 (keep-alive) is
tolerated by skipping it. Refuted on the code: on a stream whose first
message is a keep-alive `[0, 0, 0, 0]`, the reader allocates an empty payload
buffer and panics indexing its byte 0 (`emptyIndex`), instead of skipping the
message. -/
theorem C5_keepalive_panics :
    (downloadPiece (fun _ => []) ⟨[], [], ⟨1, 1, [[]]⟩⟩ 0 ⟨[0, 0, 0, 0], []⟩).1 =
      .error .emptyIndex := rfl

/-- C10. The integer decoder accepts an empty digit sequence: on `ie` and
`i-e` at offset 0, `decodeNumber` succeeds with value 0 and the next offset
past the `e`. -/
theorem C10_empty_digit_sequence :
    decodeNumber ("ie".toList) 0 = .ok 0 2 ∧ decodeNumber ("i-e".toList) 0 = .ok 0 3 :=
  ⟨rfl, rfl⟩

/-- C3 counterexample: on exhausted input (the empty string at offset 0) the
decoder does not return a MalformedEncoding error — the unguarded index
`bencodedString[st]` is an out-of-bounds access, i.e. a runtime panic. -/
theorem C3_counterexample : decodeBencode [] 0 = .crash "index out of range" := rfl

/-- C3 (amended): when the start offset is in bounds and the lookahead byte
is none of `d`, `l`, a digit, or `i`, `decodeBencode` returns a
MalformedEncoding error carrying the start offset; when the input is
exhausted at the start offset it panics with an out-of-bounds access rather
than returning an error. -/
theorem C3_dispatch (s : List Char) (st : Nat) :
    (∀ ch, s.get? st = some ch → ch ≠ 'd' → ch ≠ 'l' → isDigitByte ch = false →
      ch ≠ 'i' → decodeBencode s st = .err st "unexpected value") ∧
    (s.length ≤ st → decodeBencode s st = .crash "index out of range") := by
  have hstep : decodeBencode s st = decodeBencodeF (4 * s.length + 3 + 1) s st := rfl
  constructor
  · intro ch hch hd hl hdig hi
    rw [hstep, decodeBencodeF, hch]
    simp [hd, hl, hdig, hi]
  · intro hlen
    rw [hstep, decodeBencodeF, List.get?_eq_none.mpr hlen]

/-- C3 witness: the dispatch behaviour at concrete inputs, obtained from
`C3_dispatch`. -/
theorem C3_dispatch_witness :
    decodeBencode ("x".toList) 0 = .err 0 "unexpected value" ∧
    decodeBencode ("ab".toList) 5 = .crash "index out of range" :=
  ⟨(C3_dispatch ("x".toList) 0).1 'x' rfl (by decide) (by decide) (by decide) (by decide),
   (C3_dispatch ("ab".toList) 5).2 (by decide)⟩

/-- C7 counterexample: a bencode decoding failure of the outer dictionary is
not returned to the immediate caller as an error — `parseTorrentFile` panics
(`panic(err)`), escalating past the caller. -/
theorem C7_counterexample :
    parseTorrentFile (fun _ => []) ("x".toList) = .crash "bad formatted dictionary" := rfl

/-- C7 (amended): metadata parsing returns a MissingField-style error
(`no info section`) to its caller only when the decoded outer dictionary
lacks an `info` dictionary entry; a bencode decoding failure of the outer
dictionary, a `pieces` byte string whose length is not a multiple of 20, and
a missing `announce` entry are all raised as panics that escalate past the
caller rather than returned errors. -/
theorem C7_error_propagation (ihash : List (List Char × BValue) → List Char)
    (data : List Char) :
    (∀ i msg, decodeDict data 0 = .err i msg →
      parseTorrentFile ihash data = .crash msg) ∧
    (∀ m i, decodeDict data 0 = .ok m i →
      (∀ info, mapGet? m ("info".toList) ≠ some (.dict info)) →
      parseTorrentFile ihash data = .err "no info section") ∧
    (∀ m i info ph, decodeDict data 0 = .ok m i →
      mapGet? m ("info".toList) = some (.dict info) →
      mapGet? info ("pieces".toList) = some (.str ph) → ph.length % 20 ≠ 0 →
      parseTorrentFile ihash data = .crash "invalid pieces hash") ∧
    (∀ m i info ps, decodeDict data 0 = .ok m i →
      mapGet? m ("info".toList) = some (.dict info) →
      getPieces (mapGet? info ("pieces".toList)) = .ok ps →
      mapGet? m ("announce".toList) = none →
      parseTorrentFile ihash data = .crash "interface conversion") := by
  refine ⟨?_, ?_, ?_, ?_⟩
  · intro i msg hdec
    simp only [parseTorrentFile, hdec]
  · intro m i hdec hno
    simp only [parseTorrentFile, hdec]
  · intro m i info ph hdec hinfo hpieces hmod
    simp only [parseTorrentFile, hdec, hinfo, getPieces, hpieces]
    simp [hmod]
  · intro m i info ps hdec hinfo hps hann
    simp only [parseTorrentFile, hdec, hinfo, hps, hann]

/-- C7 witness: the four propagation behaviours at concrete inputs, via
`C7_error_propagation`. -/
theorem C7_error_propagation_witness :
    parseTorrentFile (fun _ => []) [] = .crash "bad formatted dictionary" ∧
    parseTorrentFile (fun _ => []) ("de".toList) = .err "no info section" ∧
    parseTorrentFile (fun _ => []) ("d4:infod6:pieces1:aee".toList) =
      .crash "invalid pieces hash" ∧
    parseTorrentFile (fun _ => []) ("d4:infod6:pieces0:ee".toList) =
      .crash "interface conversion" :=
  ⟨(C7_error_propagation (fun _ => []) []).1 0 "bad formatted dictionary" rfl,
   (C7_error_propagation (fun _ => []) ("de".toList)).2.1 [] 2 rfl
     (fun _ h => by simp [mapGet?] at h),
   (C7_error_propagation (fun _ => []) ("d4:infod6:pieces1:aee".toList)).2.2.1
     [("info".toList, .dict [("pieces".toList, .str ['a'])])] 21
     [("pieces".toList, .str ['a'])] ['a'] rfl rfl rfl (by decide),
   (C7_error_propagation (fun _ => []) ("d4:infod6:pieces0:ee".toList)).2.2.2
     [("info".toList, .dict [("pieces".toList, .str [])])] 20
     [("pieces".toList, .str [])] [] rfl rfl rfl rfl⟩

/-- Shape of the `parsePeers` slicing loop on a buffer of length `6 * n`:
one endpoint per 6-byte group, in input order, with the big-endian port. -/
theorem peersChunks_spec : ∀ (n : Nat) (bs : List Nat), bs.length = 6 * n →
    (peersChunks bs).length = n ∧
    ∀ k, k < n → (peersChunks bs).get? k =
      some ⟨[bs.getD (6 * k) 0, bs.getD (6 * k + 1) 0, bs.getD (6 * k + 2) 0,
             bs.getD (6 * k + 3) 0],
            bs.getD (6 * k + 4) 0 * 256 + bs.getD (6 * k + 5) 0⟩ := by
  intro n
  induction n with
  | zero =>
    intro bs hbs
    have : bs = [] := List.eq_nil_of_length_eq_zero (by omega)
    subst this
    exact ⟨rfl, fun k hk => absurd hk (by omega)⟩
  | succ n ih =>
    intro bs hbs
    match bs with
    | [] => simp at hbs
    | [_] => simp at hbs; omega
    | [_, _] => simp at hbs; omega
    | [_, _, _] => simp at hbs; omega
    | [_, _, _, _] => simp at hbs; omega
    | [_, _, _, _, _] => simp at hbs; omega
    | a :: b :: c :: d :: e :: f :: rest =>
      have hrest : rest.length = 6 * n := by simp at hbs; omega
      obtain ⟨ihlen, ihget⟩ := ih rest hrest
      constructor
      · simp [peersChunks, ihlen]
      · intro k hk
        cases k with
        | zero => simp [peersChunks, List.getD]
        | succ k =>
          have h6 : ∀ j : Nat,
              (a :: b :: c :: d :: e :: f :: rest).getD (6 * (k + 1) + j) 0 =
                rest.getD (6 * k + j) 0 := by
            intro j
            have : 6 * (k + 1) + j = (6 * k + j) + 6 := by ring
            rw [this]
            rfl
          have h60 := h6 0
          rw [Nat.add_zero] at h60
          rw [show (peersChunks (a :: b :: c :: d :: e :: f :: rest)).get? (k + 1) =
                (peersChunks rest).get? k from rfl,
              ihget k (by omega), h60, h6 1, h6 2, h6 3, h6 4, h6 5]
          simp

/-- C8. For every buffer whose length is not a multiple of 6, `parsePeers`
fails with the InvalidLength error and never truncates; for every buffer
whose length is a multiple of 6 it returns one endpoint per 6-byte group in
input order, each built from the 4 address bytes and the big-endian 2-byte
port — in particular, a 12-byte buffer yields exactly 2 endpoints. -/
theorem C8_parsePeers (bs : List Nat) :
    (bs.length % 6 ≠ 0 → parsePeers bs = .error "peers string has incorrect length") ∧
    (bs.length % 6 = 0 →
      parsePeers bs = .ok (peersChunks bs) ∧
      (peersChunks bs).length = bs.length / 6 ∧
      ∀ k, k < bs.length / 6 → (peersChunks bs).get? k =
        some ⟨[bs.getD (6 * k) 0, bs.getD (6 * k + 1) 0, bs.getD (6 * k + 2) 0,
               bs.getD (6 * k + 3) 0],
              bs.getD (6 * k + 4) 0 * 256 + bs.getD (6 * k + 5) 0⟩) := by
  constructor
  · intro h
    simp [parsePeers, h]
  · intro h
    refine ⟨by simp [parsePeers, h], ?_⟩
    exact peersChunks_spec (bs.length / 6) bs (by omega)

/-- C8 witness: a valid 12-byte buffer yields exactly the 2 endpoints in
input order, and a 3-byte buffer is rejected, via `C8_parsePeers`. -/
theorem C8_parsePeers_witness :
    parsePeers [1, 2, 3, 4, 0, 80, 5, 6, 7, 8, 1, 1] =
      .ok [⟨[1, 2, 3, 4], 80⟩, ⟨[5, 6, 7, 8], 257⟩] ∧
    parsePeers [9, 9, 9] = .error "peers string has incorrect length" :=
  ⟨((C8_parsePeers [1, 2, 3, 4, 0, 80, 5, 6, 7, 8, 1, 1]).2 (by decide)).1.trans rfl,
   (C8_parsePeers [9, 9, 9]).1 (by decide)⟩

/-- A successful `conn.Read` never changes the write log. -/
theorem connRead_writes (c : Conn) (k : Nat) (r : List Nat × Conn)
    (h : connRead c k = some r) : r.2.writes = c.writes := by
  unfold connRead at h
  split_ifs at h <;> (cases h; rfl)

/-- The framed read of `readMsgId` never changes the write log. -/
theorem readMsgId_writes (c : Conn) : (readMsgId c).2.writes = c.writes := by
  simp only [readMsgId]
  split
  · rfl
  · rename_i lb c1 h1
    have hw1 := connRead_writes _ _ _ h1
    split
    · exact hw1
    · rename_i pb c2 h2
      have hw2 := connRead_writes _ _ _ h2
      split <;> exact hw2.trans hw1

/-- C6. For every run of `downloadPiece` in which the first framed read
yields a message id other than bitfield(5), the operation fails immediately
with the `expected bitfield message` panic (UnexpectedMessage) and nothing —
in particular no `interested` message — is written to the connection: the
final write log equals the initial one. -/
theorem C6_non_bitfield_is_fatal (hash : List Nat → List Char)
    (t : ParsedTorrentFile) (index : Int) (c c1 : Conn) (id1 : Nat)
    (hread : readMsgId c = (.ok id1, c1)) (hid : id1 ≠ 5) :
    downloadPiece hash t index c = (.error .expectedBitfield, c1) ∧
    c1.writes = c.writes := by
  constructor
  · simp only [downloadPiece, downloadBlocks, hread]
    rw [if_pos hid]
  · have := readMsgId_writes c
    rw [hread] at this
    exact this

/-- C6 witness: a stream whose first message is `piece(7)` (framed as
`[0, 0, 0, 1, 7]`) makes `downloadPiece` fail before writing anything, via
`C6_non_bitfield_is_fatal`. -/
theorem C6_non_bitfield_is_fatal_witness :
    downloadPiece (fun _ => []) ⟨[], [], ⟨0, 1, []⟩⟩ 0 ⟨[0, 0, 0, 1, 7], []⟩ =
      (.error .expectedBitfield, ⟨[], []⟩) :=
  (C6_non_bitfield_is_fatal (fun _ => []) ⟨[], [], ⟨0, 1, []⟩⟩ 0
    ⟨[0, 0, 0, 1, 7], []⟩ ⟨[], []⟩ 7 rfl (by decide)).1

/-- C2. `downloadPiece` returns bytes only after comparing their digest with
the expected piece digest at `index`: whenever it returns `d`, the assembled
data of the block phase is exactly `d` and the digest of `d` equals the
expected digest (so no partially-verified piece is ever returned); and
whenever the block phase completes with data whose digest does not match,
it fails with the IntegrityError panic and returns no bytes. -/
theorem C2_digest_verification (hash : List Nat → List Char)
    (t : ParsedTorrentFile) (index : Int) (c : Conn) :
    (∀ d, (downloadPiece hash t index c).1 = .ok d →
      (downloadBlocks t index c).1 = .ok d ∧
      ∃ h : 0 ≤ index ∧ index.toNat < t.info.pieces.length,
        hash d = t.info.pieces.get ⟨index.toNat, h.2⟩) ∧
    (∀ d c1, downloadBlocks t index c = (.ok d, c1) →
      ∀ h : 0 ≤ index ∧ index.toNat < t.info.pieces.length,
        hash d ≠ t.info.pieces.get ⟨index.toNat, h.2⟩ →
        downloadPiece hash t index c = (.error .integrity, c1)) := by
  constructor
  · intro d hd
    rcases hb : downloadBlocks t index c with ⟨res, c1⟩
    cases res with
    | error e =>
      rw [show downloadPiece hash t index c = (.error e, c1) from by
            simp only [downloadPiece, hb]] at hd
      simp at hd
    | ok data =>
      have hdp : downloadPiece hash t index c = verifyPiece hash t index data c1 := by
        simp only [downloadPiece, hb]
      rw [hdp] at hd
      unfold verifyPiece at hd
      by_cases hidx : 0 ≤ index ∧ index.toNat < t.info.pieces.length
      · rw [dif_pos hidx] at hd
        by_cases hhash : hash data = t.info.pieces.get ⟨index.toNat, hidx.2⟩
        · rw [if_pos hhash] at hd
          simp only at hd
          cases hd
          exact ⟨rfl, ⟨hidx, hhash⟩⟩
        · rw [if_neg hhash] at hd
          simp at hd
      · rw [dif_neg hidx] at hd
        simp at hd
  · intro d c1 hb h hne
    have hdp : downloadPiece hash t index c = verifyPiece hash t index d c1 := by
      simp only [downloadPiece, hb]
    rw [hdp]
    unfold verifyPiece
    rw [dif_pos h, if_neg hne]

/-- C2 witness: a complete bitfield-unchoke-piece run for piece 0 of a
5-byte file with piece length 4. Under a digest function mapping everything
to the expected digest the four assembled block bytes are returned; under
one mapping everything to a different digest the run ends in the integrity
panic. Both facts are obtained from `C2_digest_verification`. -/
theorem C2_digest_verification_witness :
    (downloadBlocks ⟨[], [], ⟨5, 4, [['a'], ['b']]⟩⟩ 0
      ⟨[0, 0, 0, 2, 5, 0, 0, 0, 0, 1, 1,
        0, 0, 0, 13, 7, 0, 0, 0, 0, 0, 0, 0, 0, 10, 20, 30, 40], []⟩).1 =
      .ok [10, 20, 30, 40] ∧
    downloadPiece (fun _ => ['x']) ⟨[], [], ⟨5, 4, [['a'], ['b']]⟩⟩ 0
      ⟨[0, 0, 0, 2, 5, 0, 0, 0, 0, 1, 1,
        0, 0, 0, 13, 7, 0, 0, 0, 0, 0, 0, 0, 0, 10, 20, 30, 40], []⟩ =
      (.error .integrity,
       ⟨[], [[0, 0, 0, 1, 2], [0, 0, 0, 13, 6, 0, 0, 0, 0, 0, 0, 0, 0, 0, 0, 0, 4]]⟩) :=
  ⟨((C2_digest_verification (fun _ => ['a']) ⟨[], [], ⟨5, 4, [['a'], ['b']]⟩⟩ 0
      ⟨[0, 0, 0, 2, 5, 0, 0, 0, 0, 1, 1,
        0, 0, 0, 13, 7, 0, 0, 0, 0, 0, 0, 0, 0, 10, 20, 30, 40], []⟩).1
      [10, 20, 30, 40] rfl).1,
   (C2_digest_verification (fun _ => ['x']) ⟨[], [], ⟨5, 4, [['a'], ['b']]⟩⟩ 0
      ⟨[0, 0, 0, 2, 5, 0, 0, 0, 0, 1, 1,
        0, 0, 0, 13, 7, 0, 0, 0, 0, 0, 0, 0, 0, 10, 20, 30, 40], []⟩).2
      [10, 20, 30, 40]
      ⟨[], [[0, 0, 0, 1, 2], [0, 0, 0, 13, 6, 0, 0, 0, 0, 0, 0, 0, 0, 0, 0, 0, 4]]⟩
      rfl ⟨by decide, by decide⟩ (by decide)⟩

/-! ## C9: decoding a rendered integer -/

/-- The most-significant-first decimal digits of a natural number, used to
state C9 (the spec's property quantifies over the decimal rendering
`"i" + n + "e"` of an integer). -/
def natDigits (n : Nat) : List Char :=
  if n < 10 then [Char.ofNat (48 + n)]
  else natDigits (n / 10) ++ [Char.ofNat (48 + n % 10)]
termination_by n
decreasing_by exact Nat.div_lt_self (by omega) (by omega)

/-- The standard decimal rendering of an integer: a minus sign followed by
the digits of the magnitude for negative values, the plain digits otherwise. -/
def renderInt (n : Int) : List Char :=
  if n < 0 then '-' :: natDigits (-n).toNat else natDigits n.toNat

/-- The accumulator of the digit-scanning loop along a digit list. -/
def foldDigits (x : Nat) (ds : List Char) : Nat :=
  ds.foldl (fun a c => a * 10 + (c.toNat - 48)) x

theorem digitChar_toNat (d : Nat) (hd : d < 10) : (Char.ofNat (48 + d)).toNat = 48 + d := by
  interval_cases d <;> rfl

theorem digitChar_isDigit (d : Nat) (hd : d < 10) :
    isDigitByte (Char.ofNat (48 + d)) = true := by
  interval_cases d <;> decide

theorem natDigits_digits (n : Nat) : ∀ c ∈ natDigits n, isDigitByte c = true := by
  induction n using Nat.strong_induction_on with
  | _ n ih =>
    intro c hc
    by_cases h : n < 10
    · rw [natDigits, if_pos h] at hc
      simp at hc
      rw [hc]
      exact digitChar_isDigit n h
    · rw [natDigits, if_neg h] at hc
      rcases List.mem_append.mp hc with hc | hc
      · exact ih (n / 10) (Nat.div_lt_self (by omega) (by omega)) c hc
      · simp at hc
        rw [hc]
        exact digitChar_isDigit (n % 10) (Nat.mod_lt n (by omega))

theorem natDigits_ne_nil (n : Nat) : natDigits n ≠ [] := by
  by_cases h : n < 10
  · rw [natDigits, if_pos h]
    simp
  · rw [natDigits, if_neg h]
    simp

theorem scanDigits_append (ds : List Char) (rest : List Char) (x : Nat)
    (hds : ∀ c ∈ ds, isDigitByte c = true)
    (hrest : ∀ c, rest.head? = some c → isDigitByte c = false) :
    scanDigits (ds ++ rest) x = (foldDigits x ds, ds.length) := by
  induction ds generalizing x with
  | nil =>
    simp only [List.nil_append, foldDigits, List.foldl_nil, List.length_nil]
    cases rest with
    | nil => rfl
    | cons c cs => simp [scanDigits, hrest c rfl]
  | cons c cs ih =>
    have hc : isDigitByte c = true := hds c (List.mem_cons_self _ _)
    simp only [List.cons_append, scanDigits, hc, if_true]
    rw [show scanDigits (cs.append rest) (x * 10 + (c.toNat - 48)) =
          (foldDigits (x * 10 + (c.toNat - 48)) cs, cs.length) from
        ih (x * 10 + (c.toNat - 48)) (fun c' hc' => hds c' (List.mem_cons_of_mem _ hc'))]
    simp [foldDigits]

theorem foldDigits_natDigits (n : Nat) : ∀ x : Nat,
    foldDigits x (natDigits n) = x * 10 ^ (natDigits n).length + n := by
  induction n using Nat.strong_induction_on with
  | _ n ih =>
    intro x
    by_cases h : n < 10
    · rw [natDigits, if_pos h]
      simp [foldDigits, digitChar_toNat n h]
    · rw [natDigits, if_neg h]
      rw [foldDigits, List.foldl_append]
      have hdiv := ih (n / 10) (Nat.div_lt_self (by omega) (by omega)) x
      rw [foldDigits] at hdiv
      rw [hdiv]
      simp only [List.foldl_cons, List.foldl_nil, List.length_append, List.length_cons,
        List.length_nil]
      rw [digitChar_toNat (n % 10) (Nat.mod_lt n (by omega))]
      have : 48 + n % 10 - 48 = n % 10 := by omega
      rw [this, pow_succ]
      have := Nat.div_add_mod n 10
      ring_nf
      omega

theorem scanDigits_natDigits_e (m : Nat) :
    scanDigits (natDigits m ++ ['e']) 0 = (m, (natDigits m).length) := by
  rw [scanDigits_append (natDigits m) ['e'] 0 (natDigits_digits m)
      (by intro c hc; cases hc; decide)]
  rw [foldDigits_natDigits]
  simp

/-- C9. For every integer `n`, decoding the bencoded form
`"i" + decimal rendering of n + "e"` from offset 0 yields the value `n` and
the next offset just past the terminating `e`, including negative `n`. -/
theorem C9_decode_rendered_integer (n : Int) :
    decodeNumber ('i' :: (renderInt n ++ ['e'])) 0 = .ok n ((renderInt n).length + 2) := by
  by_cases hneg : n < 0
  · rw [renderInt, if_pos hneg]
    obtain ⟨d, ds', hcons⟩ := List.exists_cons_of_ne_nil (natDigits_ne_nil (-n).toNat)
    have hlen1 : 1 ≤ (natDigits (-n).toNat).length := by rw [hcons]; simp
    simp only [decodeNumber]
    rw [if_neg (by simp)]
    have hminus : ('i' :: ('-' :: natDigits (-n).toNat ++ ['e'])).get? (0 + 1) = some '-' := rfl
    rw [if_pos hminus]
    have hdrop : ('i' :: ('-' :: natDigits (-n).toNat ++ ['e'])).drop (0 + 1 + 1) =
        natDigits (-n).toNat ++ ['e'] := rfl
    rw [hdrop, scanDigits_natDigits_e]
    rw [show 0 + 1 + 1 + (natDigits (-n).toNat).length =
        (natDigits (-n).toNat).length + 2 from by omega]
    have hget : ('i' :: ('-' :: natDigits (-n).toNat ++ ['e'])).get?
        ((natDigits (-n).toNat).length + 2) = some 'e' := by
      show (natDigits (-n).toNat ++ ['e']).get? (natDigits (-n).toNat).length = some 'e'
      exact List.get?_concat_length _ _
    rw [if_neg (by rw [hget]; simp)]
    have hval : -(((-n).toNat : Nat) : Int) = n := by omega
    rw [hval]
    have : (natDigits (-n).toNat).length + 2 + 1 =
        ('-' :: natDigits (-n).toNat).length + 2 := by simp
    rw [this, if_pos hminus]
  · rw [renderInt, if_neg hneg]
    obtain ⟨d, ds', hcons⟩ := List.exists_cons_of_ne_nil (natDigits_ne_nil n.toNat)
    have hlen1 : 1 ≤ (natDigits n.toNat).length := by rw [hcons]; simp
    have hd_digit : isDigitByte d = true := by
      refine natDigits_digits n.toNat d ?_
      rw [hcons]
      exact List.mem_cons_self _ _
    have hd_ne : d ≠ '-' := by
      intro h
      rw [h] at hd_digit
      exact absurd hd_digit (by decide)
    simp only [decodeNumber]
    rw [if_neg (by simp)]
    have hminus : ¬(('i' :: (natDigits n.toNat ++ ['e'])).get? (0 + 1) = some '-') := by
      rw [hcons]
      simpa using hd_ne
    rw [if_neg hminus]
    have hdrop : ('i' :: (natDigits n.toNat ++ ['e'])).drop (0 + 1) =
        natDigits n.toNat ++ ['e'] := rfl
    rw [hdrop, scanDigits_natDigits_e]
    rw [show 0 + 1 + (natDigits n.toNat).length =
        (natDigits n.toNat).length + 1 from by omega]
    have hget : ('i' :: (natDigits n.toNat ++ ['e'])).get?
        ((natDigits n.toNat).length + 1) = some 'e' := by
      show (natDigits n.toNat ++ ['e']).get? (natDigits n.toNat).length = some 'e'
      exact List.get?_concat_length _ _
    rw [if_neg (by rw [hget]; simp)]
    have hval : ((n.toNat : Nat) : Int) = n := Int.toNat_of_nonneg (by omega)
    rw [hval]
    have : (natDigits n.toNat).length + 1 + 1 = (natDigits n.toNat).length + 2 := by
      omega
    rw [this, if_neg hminus]

end BitTorrentProof
